import Mathlib

/-!
Verification of the laboratory-test subsystem (module_3) of the
Hastane Otomasyon Sistemi repository.

The Python sources embedded here:
  app/modules/module_3/base.py        : TestStatus, ResultStatus, ReferenceRange, LabTest
  app/modules/module_3/subclasses.py  : BloodTest (validate_result, evaluate_criticality)
  app/modules/module_3/repository.py  : InMemoryLabTestRepository, CachedLabTestRepository

Machine floats of the source are modelled as rationals; datetimes as Nat
ticks supplied by the caller; Python exceptions as Except String; Python
dicts either as functions with pointwise update or as insertion-ordered
association lists, and Python sets as duplicate-free lists.
-/

namespace HastaneLab

/-- TestStatus enum from base.py: the lifecycle states of a test. -/
inductive TestStatus
  | ordered
  | collected
  | inProgress
  | completed
  | cancelled
  deriving DecidableEq, Repr

/-- The string value carried by each TestStatus enum member. -/
def TestStatus.value : TestStatus → String
  | .ordered => "ORDERED"
  | .collected => "COLLECTED"
  | .inProgress => "IN_PROGRESS"
  | .completed => "COMPLETED"
  | .cancelled => "CANCELLED"

/-- ResultStatus enum from base.py: the criticality label of a result. -/
inductive ResultStatus
  | unknown
  | normal
  | borderline
  | critical
  deriving DecidableEq, Repr

/-- The string value carried by each ResultStatus enum member. -/
def ResultStatus.value : ResultStatus → String
  | .unknown => "UNKNOWN"
  | .normal => "NORMAL"
  | .borderline => "BORDERLINE"
  | .critical => "CRITICAL"

/-- ReferenceRange from base.py: reference interval for numeric results. -/
structure ReferenceRange where
  low : ℚ
  high : ℚ
  unit : String
  deriving DecidableEq, Repr

/-- ReferenceRange.contains: the chained comparison low <= value <= high. -/
def ReferenceRange.contains (r : ReferenceRange) (value : ℚ) : Bool :=
  decide (r.low ≤ value ∧ value ≤ r.high)

/-- A result payload handed to BloodTest, from subclasses.py: either a
NumericResult dataclass (value, unit), or a Python dict whose value and
unit keys may each be present or absent, or a payload of any other type. -/
inductive BloodResult
  | numeric (value : ℚ) (unit : String)
  | dictR (value : Option ℚ) (unit : Option String)
  | other
  deriving DecidableEq, Repr

/-- The epsilon guard 1e-9 used by BloodTest.evaluate_criticality. -/
def epsGuard : ℚ := 1 / 1000000000

/-- The value extracted from a blood result by evaluate_criticality
(float of result.value, or of the value key for a dict result). -/
def BloodResult.payloadValue : BloodResult → ℚ
  | .numeric v _ => v
  | .dictR v _ => v.getD 0
  | .other => 0

/-- The shared tail of BloodTest.validate_result once value and unit are
extracted: the unit must equal the reference unit after stripping, and
the value must not be negative. -/
def BloodTest.checkValueUnit (ref : ReferenceRange) (value : ℚ) (unit : String) :
    Except String Unit :=
  if unit.trim ≠ ref.unit then
    .error ("Birim uyusmuyor. Beklenen: " ++ ref.unit)
  else if value < 0 then
    .error "Sonuc degeri negatif olamaz!"
  else
    .ok ()

/-- BloodTest.validate_result from subclasses.py. -/
def BloodTest.validate_result (ref : ReferenceRange) (result : BloodResult) :
    Except String Unit :=
  match result with
  | .other => .error "BloodTest sonucu NumericResult veya dict olmali"
  | .dictR v u =>
    match v, u with
    | some value, some unit => BloodTest.checkValueUnit ref value unit
    | _, _ => .error "Dict sonucta value ve unit olmali"
  | .numeric value unit => BloodTest.checkValueUnit ref value unit

/-- BloodTest.evaluate_criticality from subclasses.py: inside the range
gives normal; otherwise the relative distance from the breached bound,
with the bound guarded by the 1e-9 epsilon, decides borderline (at most
ten percent) against critical. -/
def BloodTest.evaluate_criticality (ref : ReferenceRange) (result : BloodResult) :
    ResultStatus :=
  let value := result.payloadValue
  if ref.contains value then ResultStatus.normal
  else
    let delta :=
      if value < ref.low then (ref.low - value) / max ref.low epsGuard
      else (value - ref.high) / max ref.high epsGuard
    if delta ≤ 1 / 10 then ResultStatus.borderline else ResultStatus.critical

/-- The reference range of BloodTest.default_glucose: 70 to 110 mg/dL. -/
def BloodTest.glucoseReference : ReferenceRange :=
  { low := 70, high := 110, unit := "mg/dL" }

/-- One record of the audit trail kept by LabTest. The payload dict is a
list of key and value strings; timestamps are the tick the caller runs at. -/
structure AuditEntry where
  time : Nat
  action : String
  payload : List (String × String)
  deriving DecidableEq, Repr

/-- The mutable and identifying fields of a LabTest instance (base.py).
The result type is a parameter because each subclass stores a different
payload shape. -/
structure LabTestState (α : Type) where
  test_id : Nat
  patient_id : Nat
  test_type : String
  ordered_by : String
  status : TestStatus
  ordered_at : Nat
  collected_at : Option Nat
  completed_at : Option Nat
  result : Option α
  result_note : String
  result_status : ResultStatus
  audit : List AuditEntry
  deriving DecidableEq, Repr

namespace LabTest

variable {α : Type}

/-- The private log helper of LabTest: appends one audit record. -/
def log (s : LabTestState α) (now : Nat) (action : String)
    (payload : List (String × String)) : LabTestState α :=
  { s with audit := s.audit ++ [⟨now, action, payload⟩] }

/-- LabTest constructor: fields as initialised by the base class, plus the
CREATE audit record. -/
def create (α : Type) (test_id patient_id : Nat) (test_type ordered_by : String)
    (status : TestStatus) (ordered_at : Option Nat) (now : Nat) : LabTestState α :=
  { test_id := test_id
    patient_id := patient_id
    test_type := test_type.trim
    ordered_by := ordered_by.trim
    status := status
    ordered_at := ordered_at.getD now
    collected_at := none
    completed_at := none
    result := none
    result_note := ""
    result_status := ResultStatus.unknown
    audit := [⟨now, "CREATE", [("status", status.value)]⟩] }

/-- The private guard that rejects any operation on a cancelled test. -/
def ensure_not_cancelled (s : LabTestState α) : Except String Unit :=
  if s.status = TestStatus.cancelled then
    .error "Iptal edilen test uzerinde islem yapilamaz."
  else
    .ok ()

/-- LabTest.collect_sample: guard against cancelled, then against the
terminal statuses, then record the collection time and move to collected. -/
def collect_sample (s : LabTestState α) (when : Option Nat) (now : Nat) :
    Except String (LabTestState α) :=
  match ensure_not_cancelled s with
  | .error e => .error e
  | .ok _ =>
    if s.status = TestStatus.cancelled ∨ s.status = TestStatus.completed then
      .error "Tamamlanmis/iptal edilmis testte ornek alinamaz."
    else
      let t := when.getD now
      .ok (log { s with collected_at := some t, status := TestStatus.collected }
            now "COLLECT" [("collected_at", toString t)])

/-- LabTest.start_processing: requires ordered or collected, then moves the
test to inProgress. -/
def start_processing (s : LabTestState α) (now : Nat) : Except String (LabTestState α) :=
  match ensure_not_cancelled s with
  | .error e => .error e
  | .ok _ =>
    if ¬ (s.status = TestStatus.collected ∨ s.status = TestStatus.ordered) then
      .error "Test islemeye baslamak icin once ordered/collected olmali."
    else
      let s1 := { s with status := TestStatus.inProgress }
      .ok (log s1 now "START" [("status", s1.status.value)])

/-- LabTest.cancel: rejected only on a completed test; otherwise sets the
status to cancelled and logs the reason. -/
def cancel (s : LabTestState α) (reason : String) (now : Nat) :
    Except String (LabTestState α) :=
  if s.status = TestStatus.completed then
    .error "Tamamlanmis test iptal edilemez."
  else
    let s1 := { s with status := TestStatus.cancelled }
    .ok (log s1 now "CANCEL" [("reason", reason)])

/-- LabTest.set_result: requires inProgress, validates the payload through
the subclass hook, then stores the result, its note, the criticality from
the subclass hook, the completion time, and moves to completed. -/
def set_result (validate : α → Except String Unit) (evaluate : α → ResultStatus)
    (s : LabTestState α) (result : α) (note : String) (now : Nat) :
    Except String (LabTestState α × ResultStatus) :=
  match ensure_not_cancelled s with
  | .error e => .error e
  | .ok _ =>
    if s.status ≠ TestStatus.inProgress then
      .error "Sonuc girmek icin test IN_PROGRESS olmali."
    else
      match validate result with
      | .error e => .error e
      | .ok _ =>
        let rs := evaluate result
        let s1 := { s with
          result := some result
          result_note := note.trim
          result_status := rs
          completed_at := some now
          status := TestStatus.completed }
        .ok (log s1 now "RESULT"
          [("result_status", rs.value), ("completed_at", toString now)], rs)

/-- LabTest.is_valid_status_transition from base.py: the allowed dict. -/
def is_valid_status_transition (current new : TestStatus) : Bool :=
  let allowed : TestStatus → List TestStatus := fun st =>
    match st with
    | .ordered => [.collected, .inProgress, .cancelled]
    | .collected => [.inProgress, .cancelled]
    | .inProgress => [.completed, .cancelled]
    | .completed => []
    | .cancelled => []
  decide (new ∈ allowed current)

end LabTest

/-- One lifecycle call on a test entity, with the tick it runs at. -/
inductive LabOp (α : Type)
  | collectOp (when : Option Nat) (now : Nat)
  | startOp (now : Nat)
  | cancelOp (reason : String) (now : Nat)
  | resultOp (result : α) (note : String) (now : Nat)

namespace LabTest

/-- Runs one lifecycle call on the entity: a raised error leaves every
field as it was, which is what the Python methods do since each raise
happens before the first field write. -/
def applyOp (validate : α → Except String Unit) (evaluate : α → ResultStatus)
    (s : LabTestState α) : LabOp α → LabTestState α
  | .collectOp when now =>
    match collect_sample s when now with
    | .ok s' => s'
    | .error _ => s
  | .startOp now =>
    match start_processing s now with
    | .ok s' => s'
    | .error _ => s
  | .cancelOp reason now =>
    match cancel s reason now with
    | .ok s' => s'
    | .error _ => s
  | .resultOp result note now =>
    match set_result validate evaluate s result note now with
    | .ok p => p.1
    | .error _ => s

/-- Runs a sequence of lifecycle calls left to right. -/
def runOps (validate : α → Except String Unit) (evaluate : α → ResultStatus)
    (ops : List (LabOp α)) (s : LabTestState α) : LabTestState α :=
  ops.foldl (applyOp validate evaluate) s

/-- The entity invariant of the spec: a result is stored exactly on a
completed test, and the result status is unknown exactly while no result
is stored. -/
def resultInvariant (s : LabTestState α) : Prop :=
  (s.result ≠ none ↔ s.status = TestStatus.completed) ∧
  (s.result_status = ResultStatus.unknown ↔ s.result = none)

end LabTest

/-- True exactly on the ok constructor: the call did not raise. -/
def exceptOk {ε β : Type} : Except ε β → Bool
  | .ok _ => true
  | .error _ => false

/-- The validate hook of the default glucose BloodTest. -/
def glucoseValidate : BloodResult → Except String Unit :=
  BloodTest.validate_result BloodTest.glucoseReference

/-- The evaluate hook of the default glucose BloodTest. -/
def glucoseEvaluate : BloodResult → ResultStatus :=
  BloodTest.evaluate_criticality BloodTest.glucoseReference

/-- The seven legal lifecycle transitions listed by the spec. -/
def legalTransitionPairs : List (TestStatus × TestStatus) :=
  [(.ordered, .collected), (.ordered, .inProgress), (.ordered, .cancelled),
   (.collected, .inProgress), (.collected, .cancelled),
   (.inProgress, .completed), (.inProgress, .cancelled)]

/-- A fresh glucose blood test entity, created in the ordered status. -/
def demoOrdered : LabTestState BloodResult :=
  LabTest.create BloodResult 1 7 "BLOOD_BIOCHEM" "Dr. X" TestStatus.ordered (some 0) 0

/-- The same entity after start_processing: an inProgress entity. -/
def demoInProgress : LabTestState BloodResult :=
  LabTest.applyOp glucoseValidate glucoseEvaluate demoOrdered (LabOp.startOp 1)

/-- The same entity after cancel: a cancelled entity. -/
def demoCancelled : LabTestState BloodResult :=
  LabTest.applyOp glucoseValidate glucoseEvaluate demoOrdered (LabOp.cancelOp "stop" 1)

/-! Repository layer (repository.py). Entities seen by the repository are
reduced to the fields the repository reads: id, patient id, type label and
one distinguishing status field. Python dicts keyed by id or type are
modelled as functions with pointwise update, Python sets of ids as
duplicate-free lists. -/

/-- The projection of a test entity that the repository stores and indexes. -/
structure TestRec where
  test_id : Nat
  patient_id : Nat
  test_type : String
  status : TestStatus
  deriving DecidableEq, Repr

/-- One record of the repository operation history. -/
structure HistoryRec where
  time : Nat
  action : String
  test_id : Nat
  deriving DecidableEq, Repr

/-- The add method of a Python set: no duplicate is inserted. -/
def pySetAdd (l : List Nat) (x : Nat) : List Nat :=
  if x ∈ l then l else l ++ [x]

/-- The discard method of a Python set. -/
def pySetDiscard (l : List Nat) (x : Nat) : List Nat :=
  l.filter (fun y => y ≠ x)

/-- The state of InMemoryLabTestRepository: primary map, the two
secondary indexes and the operation history. -/
structure RepoState where
  tests : Nat → Option TestRec
  index_patient : Nat → List Nat
  index_type : String → List Nat
  history : List HistoryRec

namespace InMemoryLabTestRepository

/-- A fresh repository: empty maps, empty indexes, empty history. -/
def empty : RepoState :=
  { tests := fun _ => none
    index_patient := fun _ => []
    index_type := fun _ => []
    history := [] }

/-- The private index_add helper: registers the id under the patient key
and under the type key. -/
def indexAdd (r : RepoState) (t : TestRec) : RepoState :=
  { r with
    index_patient := fun p =>
      if p = t.patient_id then pySetAdd (r.index_patient p) t.test_id
      else r.index_patient p
    index_type := fun ty =>
      if ty = t.test_type then pySetAdd (r.index_type ty) t.test_id
      else r.index_type ty }

/-- The private index_remove helper: discards the id from both indexes. -/
def indexRemove (r : RepoState) (t : TestRec) : RepoState :=
  { r with
    index_patient := fun p =>
      if p = t.patient_id then pySetDiscard (r.index_patient p) t.test_id
      else r.index_patient p
    index_type := fun ty =>
      if ty = t.test_type then pySetDiscard (r.index_type ty) t.test_id
      else r.index_type ty }

/-- The private log helper: appends one history record. -/
def logRec (r : RepoState) (now : Nat) (action : String) (tid : Nat) : RepoState :=
  { r with history := r.history ++ [⟨now, action, tid⟩] }

/-- Repository add: false and no mutation when the id is present;
otherwise stores the entity, indexes it and logs ADD. -/
def add (r : RepoState) (t : TestRec) (now : Nat) : RepoState × Bool :=
  if (r.tests t.test_id).isSome then (r, false)
  else
    let r1 := { r with tests := fun k => if k = t.test_id then some t else r.tests k }
    (logRec (indexAdd r1 t) now "ADD" t.test_id, true)

/-- Repository update: false when the id is absent; otherwise removes the
old index entries, stores the new entity, indexes it and logs UPDATE. -/
def update (r : RepoState) (t : TestRec) (now : Nat) : RepoState × Bool :=
  match r.tests t.test_id with
  | none => (r, false)
  | some old =>
    let r1 := indexRemove r old
    let r2 := { r1 with tests := fun k => if k = t.test_id then some t else r1.tests k }
    (logRec (indexAdd r2 t) now "UPDATE" t.test_id, true)

/-- Repository delete: false when the id is absent; otherwise pops the
entity, removes its index entries and logs DELETE. -/
def delete (r : RepoState) (tid : Nat) (now : Nat) : RepoState × Bool :=
  match r.tests tid with
  | none => (r, false)
  | some t =>
    let r1 := { r with tests := fun k => if k = tid then none else r.tests k }
    (logRec (indexRemove r1 t) now "DELETE" tid, true)

/-- Repository get: lookup in the primary map. -/
def get (r : RepoState) (tid : Nat) : Option TestRec :=
  r.tests tid

/-- Repository find_by_patient: the ids indexed under the patient, each
kept only when still present in the primary map. -/
def find_by_patient (r : RepoState) (pid : Nat) : List TestRec :=
  (r.index_patient pid).filterMap r.tests

/-- Repository history with a limit: the Python slice with index -limit,
so limit 0 yields the whole list and a positive limit the last records. -/
def historyTail (r : RepoState) (limit : Nat) : List HistoryRec :=
  if limit = 0 then r.history else r.history.drop (r.history.length - limit)

end InMemoryLabTestRepository

/-- One repository call with the tick it runs at. -/
inductive RepoOp
  | addOp (t : TestRec) (now : Nat)
  | updateOp (t : TestRec) (now : Nat)
  | deleteOp (tid : Nat) (now : Nat)

namespace InMemoryLabTestRepository

/-- Runs one repository call, keeping the state it leaves behind. -/
def applyOp (r : RepoState) : RepoOp → RepoState
  | .addOp t now => (add r t now).1
  | .updateOp t now => (update r t now).1
  | .deleteOp tid now => (delete r tid now).1

/-- Runs a sequence of repository calls from the empty repository. -/
def runOps (ops : List RepoOp) : RepoState :=
  ops.foldl applyOp empty

/-- The index invariant the proofs carry: each id in an index is stored in
the primary map under that very id, with the matching patient or type key. -/
def Inv (r : RepoState) : Prop :=
  (∀ i t, r.tests i = some t → t.test_id = i) ∧
  (∀ p i, i ∈ r.index_patient p → ∃ t, r.tests i = some t ∧ t.patient_id = p) ∧
  (∀ ty i, i ∈ r.index_type ty → ∃ t, r.tests i = some t ∧ t.test_type = ty)

end InMemoryLabTestRepository

/-! Cache layer (CachedLabTestRepository in repository.py). The two cache
dicts are insertion-ordered association lists, matching the Python dict,
because the eviction scan takes the first entry with the least counter. -/

/-- Lookup in an association list keyed by Nat, first match wins. -/
def dictFind {β : Type} : List (Nat × β) → Nat → Option β
  | [], _ => none
  | kv :: rest, k => if kv.1 = k then some kv.2 else dictFind rest k

/-- Python dict membership. -/
def dictMem {β : Type} (l : List (Nat × β)) (k : Nat) : Bool :=
  (dictFind l k).isSome

/-- Python dict write: overwrite in place when the key exists, append at
the end when it is new. -/
def dictSet {β : Type} : List (Nat × β) → Nat → β → List (Nat × β)
  | [], k, v => [(k, v)]
  | kv :: rest, k, v => if kv.1 = k then (k, v) :: rest else kv :: dictSet rest k v

/-- Python dict pop with a default: drops the key if present. -/
def dictPop {β : Type} (l : List (Nat × β)) (k : Nat) : List (Nat × β) :=
  l.filter (fun kv => kv.1 ≠ k)

/-- The Python min over dict items keyed by the stored counter: the first
entry with the least counter, none for an empty dict. -/
def minByValue : List (Nat × Nat) → Option (Nat × Nat)
  | [] => none
  | kv :: rest => some (rest.foldl (fun best x => if x.2 < best.2 then x else best) kv)

/-- The state of CachedLabTestRepository: the wrapped repository, the
clamped capacity, the cache dict and the access counter dict. -/
structure CacheState where
  main : RepoState
  capacity : Nat
  cache : List (Nat × TestRec)
  hits : List (Nat × Nat)

namespace CachedLabTestRepository

/-- The constructor: wraps a repository and clamps the capacity to at
least one, starting with an empty cache. -/
def make (main : RepoState) (capacity : Nat) : CacheState :=
  { main := main, capacity := max 1 capacity, cache := [], hits := [] }

/-- The private evict helper: clears the cache when the counter dict is
empty, otherwise pops the entry with the least access counter from both
dicts. -/
def evict (c : CacheState) : CacheState :=
  match minByValue c.hits with
  | none => { c with cache := [] }
  | some kv => { c with cache := dictPop c.cache kv.1, hits := dictPop c.hits kv.1 }

/-- The private cache_put helper: evicts first when the cache has reached
capacity, then writes the entry and bumps its access counter. -/
def cachePut (c : CacheState) (tid : Nat) (t : TestRec) : CacheState :=
  let c1 := if c.capacity ≤ c.cache.length then evict c else c
  { c1 with
    cache := dictSet c1.cache tid t
    hits := dictSet c1.hits tid ((dictFind c1.hits tid).getD 0 + 1) }

/-- Cached get: a hit bumps the counter and returns the cached entry
without consulting the repository; a miss delegates and fills the cache
when the repository has the entity. -/
def get (c : CacheState) (tid : Nat) : CacheState × Option TestRec :=
  match dictFind c.cache tid with
  | some t =>
    ({ c with hits := dictSet c.hits tid ((dictFind c.hits tid).getD 0 + 1) }, some t)
  | none =>
    match InMemoryLabTestRepository.get c.main tid with
    | some t => (cachePut c tid t, some t)
    | none => (c, none)

/-- Cached add: writes through to the repository and fills the cache when
the repository accepted the entity. -/
def add (c : CacheState) (t : TestRec) (now : Nat) : CacheState × Bool :=
  let res := InMemoryLabTestRepository.add c.main t now
  let c1 := { c with main := res.1 }
  if res.2 then (cachePut c1 t.test_id t, true) else (c1, false)

/-- Cached delete: writes through to the repository and drops the cached
entry and its counter when the repository deleted the entity. -/
def delete (c : CacheState) (tid : Nat) (now : Nat) : CacheState × Bool :=
  let res := InMemoryLabTestRepository.delete c.main tid now
  let c1 := { c with main := res.1 }
  if res.2 then
    ({ c1 with cache := dictPop c1.cache tid, hits := dictPop c1.hits tid }, true)
  else
    (c1, false)

end CachedLabTestRepository

/-- One call on the cache layer with the tick it runs at. -/
inductive CacheOp
  | getOp (tid : Nat)
  | addOp (t : TestRec) (now : Nat)
  | deleteOp (tid : Nat) (now : Nat)

namespace CachedLabTestRepository

/-- Runs one cache layer call, keeping the state it leaves behind. -/
def applyOp (c : CacheState) : CacheOp → CacheState
  | .getOp tid => (get c tid).1
  | .addOp t now => (add c t now).1
  | .deleteOp tid now => (delete c tid now).1

/-- Runs a sequence of cache layer calls. -/
def runOps (ops : List CacheOp) (c : CacheState) : CacheState :=
  ops.foldl applyOp c

/-- Duplicate-free keys of an association list. -/
def NodupKeys {β : Type} (l : List (Nat × β)) : Prop :=
  (l.map Prod.fst).Nodup

/-- The cache invariant the proofs carry: positive capacity, clean keys,
the two dicts keyed alike, and the cache within capacity. -/
def Inv (c : CacheState) : Prop :=
  1 ≤ c.capacity ∧ NodupKeys c.cache ∧ NodupKeys c.hits ∧
  (∀ k, dictMem c.cache k = dictMem c.hits k) ∧
  c.cache.length ≤ c.capacity

end CachedLabTestRepository

/-- A first stored entity for the stale-cache scenario. -/
def staleE1 : TestRec :=
  { test_id := 1, patient_id := 7, test_type := "BLOOD_BIOCHEM", status := .ordered }

/-- A replacement entity for the same id with a different field. -/
def staleE2 : TestRec :=
  { test_id := 1, patient_id := 7, test_type := "BLOOD_BIOCHEM", status := .inProgress }

/-- The cache layer right after adding the first entity through it. -/
def staleCache1 : CacheState :=
  (CachedLabTestRepository.add
    (CachedLabTestRepository.make InMemoryLabTestRepository.empty 8) staleE1 0).1

/-- The same cache layer after the wrapped repository replaced the stored
entity for the cached id through its own update method. -/
def staleCache2 : CacheState :=
  { staleCache1 with
    main := (InMemoryLabTestRepository.update staleCache1.main staleE2 1).1 }

/-- A repository holding exactly one history record, for the limit-zero
history scenario. -/
def historyRepoOne : RepoState :=
  (InMemoryLabTestRepository.add InMemoryLabTestRepository.empty staleE1 0).1

-- THEOREMS-START

/-- C1: for a Blood test with reference range (low, high, unit) and a
numeric result v, evaluate_criticality returns normal when
low <= v <= high; when v breaches a bound it returns borderline when the
relative distance from the breached bound, guarded against zero, is at
most one tenth, and critical otherwise; and on the glucose range
(70, 110, mg/dL) the values 70 and 110 give normal, 70 times 0.95 gives
borderline, 70 times 0.80 gives critical, and 220 gives critical. -/
theorem blood_criticality_spec :
    (∀ (low high : ℚ) (u : String) (v : ℚ), low ≤ v → v ≤ high →
      BloodTest.evaluate_criticality ⟨low, high, u⟩ (.numeric v u) = .normal) ∧
    (∀ (low high : ℚ) (u : String) (v : ℚ), v < low →
      (low - v) / max low epsGuard ≤ 1 / 10 →
      BloodTest.evaluate_criticality ⟨low, high, u⟩ (.numeric v u) = .borderline) ∧
    (∀ (low high : ℚ) (u : String) (v : ℚ), v < low →
      ¬ (low - v) / max low epsGuard ≤ 1 / 10 →
      BloodTest.evaluate_criticality ⟨low, high, u⟩ (.numeric v u) = .critical) ∧
    (∀ (low high : ℚ) (u : String) (v : ℚ), low ≤ high → high < v →
      (v - high) / max high epsGuard ≤ 1 / 10 →
      BloodTest.evaluate_criticality ⟨low, high, u⟩ (.numeric v u) = .borderline) ∧
    (∀ (low high : ℚ) (u : String) (v : ℚ), low ≤ high → high < v →
      ¬ (v - high) / max high epsGuard ≤ 1 / 10 →
      BloodTest.evaluate_criticality ⟨low, high, u⟩ (.numeric v u) = .critical) ∧
    BloodTest.evaluate_criticality BloodTest.glucoseReference (.numeric 70 "mg/dL")
      = .normal ∧
    BloodTest.evaluate_criticality BloodTest.glucoseReference (.numeric 110 "mg/dL")
      = .normal ∧
    BloodTest.evaluate_criticality BloodTest.glucoseReference
      (.numeric (70 * (95 / 100)) "mg/dL") = .borderline ∧
    BloodTest.evaluate_criticality BloodTest.glucoseReference
      (.numeric (70 * (80 / 100)) "mg/dL") = .critical ∧
    BloodTest.evaluate_criticality BloodTest.glucoseReference (.numeric 220 "mg/dL")
      = .critical := by
  refine ⟨?_, ?_, ?_, ?_, ?_, ?_, ?_, ?_, ?_, ?_⟩
  · intro low high u v h1 h2
    simp [BloodTest.evaluate_criticality, ReferenceRange.contains,
      BloodResult.payloadValue, h1, h2]
  · intro low high u v h1 h2
    have hnc : ¬ (low ≤ v ∧ v ≤ high) := fun h => absurd h.1 (not_le.mpr h1)
    simp [BloodTest.evaluate_criticality, ReferenceRange.contains,
      BloodResult.payloadValue, hnc, h1]
    simpa using h2
  · intro low high u v h1 h2
    have hnc : ¬ (low ≤ v ∧ v ≤ high) := fun h => absurd h.1 (not_le.mpr h1)
    simp [BloodTest.evaluate_criticality, ReferenceRange.contains,
      BloodResult.payloadValue, hnc, h1]
    simpa using not_le.mp h2
  · intro low high u v h0 h1 h2
    have hnc : ¬ (low ≤ v ∧ v ≤ high) := fun h => absurd h.2 (not_le.mpr h1)
    have hnlt : ¬ v < low := not_lt.mpr (le_trans h0 (le_of_lt h1))
    simp [BloodTest.evaluate_criticality, ReferenceRange.contains,
      BloodResult.payloadValue, hnc, hnlt]
    simpa using h2
  · intro low high u v h0 h1 h2
    have hnc : ¬ (low ≤ v ∧ v ≤ high) := fun h => absurd h.2 (not_le.mpr h1)
    have hnlt : ¬ v < low := not_lt.mpr (le_trans h0 (le_of_lt h1))
    simp [BloodTest.evaluate_criticality, ReferenceRange.contains,
      BloodResult.payloadValue, hnc, hnlt]
    simpa using not_le.mp h2
  · norm_num [BloodTest.evaluate_criticality, ReferenceRange.contains,
      BloodResult.payloadValue, BloodTest.glucoseReference]
  · norm_num [BloodTest.evaluate_criticality, ReferenceRange.contains,
      BloodResult.payloadValue, BloodTest.glucoseReference]
  · norm_num [BloodTest.evaluate_criticality, ReferenceRange.contains,
      BloodResult.payloadValue, BloodTest.glucoseReference, epsGuard,
      max_eq_left, div_le_iff₀]
  · norm_num [BloodTest.evaluate_criticality, ReferenceRange.contains,
      BloodResult.payloadValue, BloodTest.glucoseReference, epsGuard,
      max_eq_left, div_le_iff₀]
  · norm_num [BloodTest.evaluate_criticality, ReferenceRange.contains,
      BloodResult.payloadValue, BloodTest.glucoseReference, epsGuard,
      max_eq_left, div_le_iff₀]

/-- C4: is_valid_status_transition accepts exactly the seven legal pairs
and rejects every other pair of statuses. -/
theorem valid_transition_exactly_seven (current new : TestStatus) :
    LabTest.is_valid_status_transition current new = true ↔
      (current, new) ∈ legalTransitionPairs := by
  cases current <;> cases new <;> decide

/-- C2 counterexample: an entity in the inProgress status, so not ordered,
on which collect_sample nevertheless succeeds. -/
theorem collect_sample_succeeds_from_in_progress :
    demoInProgress.status = TestStatus.inProgress ∧
    exceptOk (LabTest.collect_sample demoInProgress none 2) = true := by
  constructor
  · rfl
  · rfl

/-- C2 amended: collect_sample succeeds exactly when the status is neither
completed nor cancelled (so also from collected and inProgress); on
success it records the collection time, moves the status to collected,
appends one COLLECT audit record and changes nothing else; when the
status is completed or cancelled it raises and, run as a step, leaves the
entity exactly as it was. -/
theorem collect_sample_spec (α : Type) (validate : α → Except String Unit)
    (evaluate : α → ResultStatus) (s : LabTestState α) (when : Option Nat) (now : Nat) :
    (exceptOk (LabTest.collect_sample s when now) = true ↔
      (s.status ≠ TestStatus.completed ∧ s.status ≠ TestStatus.cancelled)) ∧
    (∀ s', LabTest.collect_sample s when now = .ok s' →
      s'.status = TestStatus.collected ∧
      s'.collected_at = some (when.getD now) ∧
      s'.test_id = s.test_id ∧ s'.patient_id = s.patient_id ∧
      s'.test_type = s.test_type ∧ s'.ordered_by = s.ordered_by ∧
      s'.ordered_at = s.ordered_at ∧ s'.completed_at = s.completed_at ∧
      s'.result = s.result ∧ s'.result_note = s.result_note ∧
      s'.result_status = s.result_status ∧
      s'.audit = s.audit ++
        [⟨now, "COLLECT", [("collected_at", toString (when.getD now))]⟩]) ∧
    ((s.status = TestStatus.completed ∨ s.status = TestStatus.cancelled) →
      exceptOk (LabTest.collect_sample s when now) = false ∧
      LabTest.applyOp validate evaluate s (LabOp.collectOp when now) = s) := by
  refine ⟨?_, ?_, ?_⟩
  · cases hst : s.status <;>
      simp [LabTest.collect_sample, LabTest.ensure_not_cancelled, exceptOk, hst]
  · intro s' h
    cases hst : s.status <;>
      simp [LabTest.collect_sample, LabTest.ensure_not_cancelled, hst] at h <;>
      simp [← h, LabTest.log]
  · intro h
    have hfail : exceptOk (LabTest.collect_sample s when now) = false := by
      rcases h with h | h <;>
        simp [LabTest.collect_sample, LabTest.ensure_not_cancelled, exceptOk, h]
    refine ⟨hfail, ?_⟩
    unfold LabTest.applyOp
    rcases hc : LabTest.collect_sample s when now with e | s'
    · simp [hc]
    · rw [hc] at hfail
      simp [exceptOk] at hfail

/-- C3 counterexample: a cancelled entity on which cancel succeeds again
instead of failing, and the audit log grows by one record. -/
theorem cancel_on_cancelled_succeeds :
    demoCancelled.status = TestStatus.cancelled ∧
    exceptOk (LabTest.cancel demoCancelled "again" 2) = true ∧
    (LabTest.applyOp glucoseValidate glucoseEvaluate demoCancelled
        (LabOp.cancelOp "again" 2)).audit.length
      = demoCancelled.audit.length + 1 := by
  refine ⟨rfl, rfl, rfl⟩

/-- C3 amended: on a completed entity all four lifecycle calls raise and
leave every field unchanged; on a cancelled entity collect_sample,
start_processing and set_result raise and leave every field unchanged,
while cancel succeeds again, keeps the status cancelled and every other
field except that it appends one CANCEL audit record. -/
theorem terminal_state_frame (α : Type) (validate : α → Except String Unit)
    (evaluate : α → ResultStatus) (s : LabTestState α) (when : Option Nat)
    (now : Nat) (reason : String) (r : α) (note : String) :
    (s.status = TestStatus.completed →
      exceptOk (LabTest.collect_sample s when now) = false ∧
      exceptOk (LabTest.start_processing s now) = false ∧
      exceptOk (LabTest.cancel s reason now) = false ∧
      exceptOk (LabTest.set_result validate evaluate s r note now) = false ∧
      LabTest.applyOp validate evaluate s (LabOp.collectOp when now) = s ∧
      LabTest.applyOp validate evaluate s (LabOp.startOp now) = s ∧
      LabTest.applyOp validate evaluate s (LabOp.cancelOp reason now) = s ∧
      LabTest.applyOp validate evaluate s (LabOp.resultOp r note now) = s) ∧
    (s.status = TestStatus.cancelled →
      exceptOk (LabTest.collect_sample s when now) = false ∧
      exceptOk (LabTest.start_processing s now) = false ∧
      exceptOk (LabTest.set_result validate evaluate s r note now) = false ∧
      LabTest.applyOp validate evaluate s (LabOp.collectOp when now) = s ∧
      LabTest.applyOp validate evaluate s (LabOp.startOp now) = s ∧
      LabTest.applyOp validate evaluate s (LabOp.resultOp r note now) = s ∧
      LabTest.cancel s reason now = .ok { s with
        status := TestStatus.cancelled
        audit := s.audit ++ [⟨now, "CANCEL", [("reason", reason)]⟩] }) := by
  constructor
  · intro hst
    simp [LabTest.collect_sample, LabTest.start_processing, LabTest.cancel,
      LabTest.set_result, LabTest.ensure_not_cancelled, LabTest.applyOp,
      exceptOk, hst]
  · intro hst
    simp [LabTest.collect_sample, LabTest.start_processing, LabTest.cancel,
      LabTest.set_result, LabTest.ensure_not_cancelled, LabTest.applyOp,
      LabTest.log, exceptOk, hst]

/-- C6: when the entity is inProgress and the validate hook rejects the
payload, set_result propagates that very error and, run as a step, writes
nothing: the state after the call is exactly the state before. -/
theorem set_result_validation_failure (α : Type) (validate : α → Except String Unit)
    (evaluate : α → ResultStatus) (s : LabTestState α) (r : α) (note : String)
    (now : Nat) (e : String)
    (hstatus : s.status = TestStatus.inProgress)
    (hval : validate r = Except.error e) :
    LabTest.set_result validate evaluate s r note now = Except.error e ∧
    LabTest.applyOp validate evaluate s (LabOp.resultOp r note now) = s := by
  have h1 : LabTest.set_result validate evaluate s r note now = Except.error e := by
    simp [LabTest.set_result, LabTest.ensure_not_cancelled, hstatus, hval]
  exact ⟨h1, by simp [LabTest.applyOp, h1]⟩

/-- C6 witness: a glucose test in progress receives a dict payload with
both keys missing; the call propagates the validation error and the
entity is unchanged. -/
theorem set_result_validation_failure_witness :
    LabTest.set_result glucoseValidate glucoseEvaluate demoInProgress
        (BloodResult.dictR none none) "" 5
      = Except.error "Dict sonucta value ve unit olmali" ∧
    LabTest.applyOp glucoseValidate glucoseEvaluate demoInProgress
        (LabOp.resultOp (BloodResult.dictR none none) "" 5) = demoInProgress :=
  set_result_validation_failure BloodResult glucoseValidate glucoseEvaluate
    demoInProgress (BloodResult.dictR none none) "" 5
    "Dict sonucta value ve unit olmali" rfl rfl

/-- Every criticality the blood evaluator can return is a definite label,
never unknown. -/
lemma blood_evaluate_ne_unknown (ref : ReferenceRange) (r : BloodResult) :
    BloodTest.evaluate_criticality ref r ≠ ResultStatus.unknown := by
  by_cases h : ref.contains r.payloadValue = true
  · simp [BloodTest.evaluate_criticality, h]
  · simp [BloodTest.evaluate_criticality, h]
    split <;> split <;> simp

/-- A failed lifecycle step leaves the entity unchanged and a successful
one keeps the entity invariant, provided the evaluate hook never returns
unknown. -/
lemma resultInvariant_applyOp {α : Type} (validate : α → Except String Unit)
    (evaluate : α → ResultStatus) (hev : ∀ r, evaluate r ≠ ResultStatus.unknown)
    (s : LabTestState α) (hs : LabTest.resultInvariant s) (op : LabOp α) :
    LabTest.resultInvariant (LabTest.applyOp validate evaluate s op) := by
  have hresnone : s.status ≠ TestStatus.completed → s.result = none := by
    intro hne
    by_contra hres
    exact hne (hs.1.mp hres)
  cases op with
  | collectOp when now =>
    simp only [LabTest.applyOp]
    rcases hc : LabTest.collect_sample s when now with e | s2
    · exact hs
    · show LabTest.resultInvariant s2
      unfold LabTest.collect_sample LabTest.ensure_not_cancelled at hc
      by_cases h1 : s.status = TestStatus.cancelled
      · simp [h1] at hc
      · by_cases h2 : s.status = TestStatus.completed
        · simp [h1, h2] at hc
        · simp [h1, h2] at hc
          have hres := hresnone h2
          refine ⟨?_, ?_⟩ <;> simp [← hc, LabTest.log, hres, hs.2.mpr hres]
  | startOp now =>
    simp only [LabTest.applyOp]
    rcases hc : LabTest.start_processing s now with e | s2
    · exact hs
    · show LabTest.resultInvariant s2
      unfold LabTest.start_processing LabTest.ensure_not_cancelled at hc
      by_cases h1 : s.status = TestStatus.cancelled
      · simp [h1] at hc
      · by_cases h2 : s.status = TestStatus.collected ∨ s.status = TestStatus.ordered
        · have h3 : s.status ≠ TestStatus.completed := by
            rcases h2 with h2 | h2 <;> simp [h2]
          simp [h1, h2] at hc
          have hres := hresnone h3
          refine ⟨?_, ?_⟩ <;> simp [← hc, LabTest.log, hres, hs.2.mpr hres]
        · simp [h1, h2] at hc
  | cancelOp reason now =>
    simp only [LabTest.applyOp]
    rcases hc : LabTest.cancel s reason now with e | s2
    · exact hs
    · show LabTest.resultInvariant s2
      unfold LabTest.cancel at hc
      by_cases h1 : s.status = TestStatus.completed
      · simp [h1] at hc
      · simp [h1] at hc
        have hres := hresnone h1
        refine ⟨?_, ?_⟩ <;> simp [← hc, LabTest.log, hres, hs.2.mpr hres]
  | resultOp r note now =>
    simp only [LabTest.applyOp]
    rcases hc : LabTest.set_result validate evaluate s r note now with e | p
    · exact hs
    · show LabTest.resultInvariant p.1
      unfold LabTest.set_result LabTest.ensure_not_cancelled at hc
      by_cases h1 : s.status = TestStatus.cancelled
      · simp [h1] at hc
      · by_cases h2 : s.status = TestStatus.inProgress
        · rcases hv : validate r with e2 | u
          · simp [h1, h2, hv] at hc
          · rcases p with ⟨p1, p2⟩
            simp [h1, h2, hv, Prod.ext_iff] at hc
            obtain ⟨hc1, hc2⟩ := hc
            refine ⟨?_, ?_⟩ <;> simp [← hc1, LabTest.log, hev r]
        · simp [h1, h2] at hc

/-- The entity invariant survives any sequence of lifecycle steps. -/
lemma resultInvariant_runOps {α : Type} (validate : α → Except String Unit)
    (evaluate : α → ResultStatus) (hev : ∀ r, evaluate r ≠ ResultStatus.unknown)
    (ops : List (LabOp α)) :
    ∀ s : LabTestState α, LabTest.resultInvariant s →
      LabTest.resultInvariant (LabTest.runOps validate evaluate ops s) := by
  induction ops with
  | nil =>
    intro s hs
    simpa [LabTest.runOps] using hs
  | cons op rest ih =>
    intro s hs
    simpa [LabTest.runOps, List.foldl] using
      ih _ (resultInvariant_applyOp validate evaluate hev s hs op)

/-- C5: an entity created in the ordered status and mutated only through
the lifecycle operations always satisfies the invariant that a result is
stored exactly on a completed test and that the result status is unknown
exactly while no result is stored, after every operation whether it
succeeds or fails, provided the variant evaluator never labels a result
unknown (which holds for every variant of the repository). -/
theorem lifecycle_result_invariant (α : Type) (validate : α → Except String Unit)
    (evaluate : α → ResultStatus) (hev : ∀ r, evaluate r ≠ ResultStatus.unknown)
    (ops : List (LabOp α)) (tid pid : Nat) (ty ob : String) (oat : Option Nat)
    (now : Nat) :
    LabTest.resultInvariant (LabTest.runOps validate evaluate ops
      (LabTest.create α tid pid ty ob TestStatus.ordered oat now)) := by
  apply resultInvariant_runOps validate evaluate hev
  refine ⟨?_, ?_⟩ <;> simp [LabTest.create]

/-- C5 witness: the invariant holds for a glucose blood test driven
through collect, start and a stored result. -/
theorem lifecycle_result_invariant_witness :
    LabTest.resultInvariant (LabTest.runOps glucoseValidate glucoseEvaluate
      [LabOp.collectOp none 1, LabOp.startOp 2,
       LabOp.resultOp (BloodResult.numeric 90 "mg/dL") "" 3]
      (LabTest.create BloodResult 1 7 "BLOOD_BIOCHEM" "Dr. X"
        TestStatus.ordered (some 0) 0)) :=
  lifecycle_result_invariant BloodResult glucoseValidate glucoseEvaluate
    (fun r => blood_evaluate_ne_unknown BloodTest.glucoseReference r)
    [LabOp.collectOp none 1, LabOp.startOp 2,
     LabOp.resultOp (BloodResult.numeric 90 "mg/dL") "" 3]
    1 7 "BLOOD_BIOCHEM" "Dr. X" (some 0) 0

/-- C10 counterexample: a repository holding one history record, on which
the limit-zero history query returns that record instead of nothing,
because the Python slice with index -0 is the whole list. -/
theorem history_limit_zero_not_empty :
    InMemoryLabTestRepository.historyTail historyRepoOne 0 ≠ [] := by
  decide

/-- C10 amended: for a positive limit the history query returns exactly
the most recent records, newest last: its length is the minimum of the
limit and the history length and its entries read the tail of the
history; the limit-zero query returns the entire history. -/
theorem history_tail_spec (r : RepoState) (n : Nat) :
    InMemoryLabTestRepository.historyTail r 0 = r.history ∧
    (1 ≤ n →
      (InMemoryLabTestRepository.historyTail r n).length = min n r.history.length ∧
      ∀ i : Nat, (InMemoryLabTestRepository.historyTail r n)[i]? =
        r.history[r.history.length - min n r.history.length + i]?) := by
  refine ⟨by simp [InMemoryLabTestRepository.historyTail], fun hn => ?_⟩
  have hne : n ≠ 0 := by omega
  refine ⟨?_, ?_⟩
  · simp [InMemoryLabTestRepository.historyTail, hne]
    omega
  · intro i
    simp only [InMemoryLabTestRepository.historyTail, hne, if_false]
    rw [List.getElem?_drop]
    congr 1
    omega

/-- Membership after a Python set add. -/
lemma mem_pySetAdd (l : List Nat) (x i : Nat) : i ∈ pySetAdd l x ↔ i ∈ l ∨ i = x := by
  by_cases h : x ∈ l
  · simp only [pySetAdd, h, if_true]
    constructor
    · exact Or.inl
    · rintro (hi | rfl)
      · exact hi
      · exact h
  · simp [pySetAdd, h]

/-- Membership after a Python set discard. -/
lemma mem_pySetDiscard (l : List Nat) (x i : Nat) :
    i ∈ pySetDiscard l x ↔ i ∈ l ∧ i ≠ x := by
  simp [pySetDiscard, List.mem_filter]

namespace InMemoryLabTestRepository

/-- The empty repository satisfies the index invariant. -/
lemma inv_empty : Inv empty := by
  refine ⟨?_, ?_, ?_⟩
  · intro i u hu
    simp [empty] at hu
  · intro p i hi
    simp [empty] at hi
  · intro ty i hi
    simp [empty] at hi

/-- add keeps the index invariant. -/
lemma inv_add (r : RepoState) (t : TestRec) (now : Nat) (h : Inv r) :
    Inv (add r t now).1 := by
  obtain ⟨hkey, hpat, hty⟩ := h
  by_cases hp : (r.tests t.test_id).isSome = true
  · simpa [add, hp] using ⟨hkey, hpat, hty⟩
  · have hnone : r.tests t.test_id = none := Option.not_isSome_iff_eq_none.mp hp
    simp only [add, hp, Bool.false_eq_true, if_false]
    refine ⟨?_, ?_, ?_⟩
    · intro i u hu
      simp only [logRec, indexAdd] at hu
      by_cases hi : i = t.test_id
      · simp [hi] at hu
        rw [← hu, hi]
      · simp [hi] at hu
        exact hkey i u hu
    · intro p i hi
      simp only [logRec, indexAdd] at hi
      by_cases hpp : p = t.patient_id
      · rw [if_pos hpp, mem_pySetAdd] at hi
        rcases hi with hi | rfl
        · obtain ⟨u, hu, hup⟩ := hpat p i hi
          have hne : i ≠ t.test_id := by
            intro he
            rw [he, hnone] at hu
            exact Option.noConfusion hu
          exact ⟨u, by simp [logRec, indexAdd, hne, hu], hup⟩
        · exact ⟨t, by simp [logRec, indexAdd], hpp.symm⟩
      · rw [if_neg hpp] at hi
        obtain ⟨u, hu, hup⟩ := hpat p i hi
        have hne : i ≠ t.test_id := by
          intro he
          rw [he, hnone] at hu
          exact Option.noConfusion hu
        exact ⟨u, by simp [logRec, indexAdd, hne, hu], hup⟩
    · intro ty i hi
      simp only [logRec, indexAdd] at hi
      by_cases hpp : ty = t.test_type
      · rw [if_pos hpp, mem_pySetAdd] at hi
        rcases hi with hi | rfl
        · obtain ⟨u, hu, hup⟩ := hty ty i hi
          have hne : i ≠ t.test_id := by
            intro he
            rw [he, hnone] at hu
            exact Option.noConfusion hu
          exact ⟨u, by simp [logRec, indexAdd, hne, hu], hup⟩
        · exact ⟨t, by simp [logRec, indexAdd], hpp.symm⟩
      · rw [if_neg hpp] at hi
        obtain ⟨u, hu, hup⟩ := hty ty i hi
        have hne : i ≠ t.test_id := by
          intro he
          rw [he, hnone] at hu
          exact Option.noConfusion hu
        exact ⟨u, by simp [logRec, indexAdd, hne, hu], hup⟩

/-- update keeps the index invariant. -/
lemma inv_update (r : RepoState) (t : TestRec) (now : Nat) (h : Inv r) :
    Inv (update r t now).1 := by
  obtain ⟨hkey, hpat, hty⟩ := h
  rcases hold : r.tests t.test_id with _ | old
  · simpa [update, hold] using ⟨hkey, hpat, hty⟩
  · have holdkey : old.test_id = t.test_id := hkey _ _ hold
    simp only [update, hold]
    refine ⟨?_, ?_, ?_⟩
    · intro i u hu
      simp only [logRec, indexAdd, indexRemove] at hu
      by_cases hi : i = t.test_id
      · simp [hi] at hu
        rw [← hu, hi]
      · simp [hi] at hu
        exact hkey i u hu
    · intro p i hi
      simp only [logRec, indexAdd, indexRemove] at hi
      by_cases hpp : p = t.patient_id
      · rw [if_pos hpp, mem_pySetAdd] at hi
        rcases hi with hi | rfl
        · by_cases hpo : p = old.patient_id
          · rw [if_pos hpo, mem_pySetDiscard] at hi
            obtain ⟨hi, hine⟩ := hi
            obtain ⟨u, hu, hup⟩ := hpat p i hi
            have hne : i ≠ t.test_id := fun he => hine (he.trans holdkey.symm)
            exact ⟨u, by simp [logRec, indexAdd, indexRemove, hne, hu], hup⟩
          · rw [if_neg hpo] at hi
            obtain ⟨u, hu, hup⟩ := hpat p i hi
            have hne : i ≠ t.test_id := by
              intro he
              rw [he, hold] at hu
              have h2 : old = u := Option.some.inj hu
              exact hpo (by rw [← hup, ← h2])
            exact ⟨u, by simp [logRec, indexAdd, indexRemove, hne, hu], hup⟩
        · exact ⟨t, by simp [logRec, indexAdd, indexRemove], hpp.symm⟩
      · rw [if_neg hpp] at hi
        by_cases hpo : p = old.patient_id
        · rw [if_pos hpo, mem_pySetDiscard] at hi
          obtain ⟨hi, hine⟩ := hi
          obtain ⟨u, hu, hup⟩ := hpat p i hi
          have hne : i ≠ t.test_id := fun he => hine (he.trans holdkey.symm)
          exact ⟨u, by simp [logRec, indexAdd, indexRemove, hne, hu], hup⟩
        · rw [if_neg hpo] at hi
          obtain ⟨u, hu, hup⟩ := hpat p i hi
          have hne : i ≠ t.test_id := by
            intro he
            rw [he, hold] at hu
            have h2 : old = u := Option.some.inj hu
            exact hpo (by rw [← hup, ← h2])
          exact ⟨u, by simp [logRec, indexAdd, indexRemove, hne, hu], hup⟩
    · intro ty i hi
      simp only [logRec, indexAdd, indexRemove] at hi
      by_cases hpp : ty = t.test_type
      · rw [if_pos hpp, mem_pySetAdd] at hi
        rcases hi with hi | rfl
        · by_cases hpo : ty = old.test_type
          · rw [if_pos hpo, mem_pySetDiscard] at hi
            obtain ⟨hi, hine⟩ := hi
            obtain ⟨u, hu, hup⟩ := hty ty i hi
            have hne : i ≠ t.test_id := fun he => hine (he.trans holdkey.symm)
            exact ⟨u, by simp [logRec, indexAdd, indexRemove, hne, hu], hup⟩
          · rw [if_neg hpo] at hi
            obtain ⟨u, hu, hup⟩ := hty ty i hi
            have hne : i ≠ t.test_id := by
              intro he
              rw [he, hold] at hu
              have h2 : old = u := Option.some.inj hu
              exact hpo (by rw [← hup, ← h2])
            exact ⟨u, by simp [logRec, indexAdd, indexRemove, hne, hu], hup⟩
        · exact ⟨t, by simp [logRec, indexAdd, indexRemove], hpp.symm⟩
      · rw [if_neg hpp] at hi
        by_cases hpo : ty = old.test_type
        · rw [if_pos hpo, mem_pySetDiscard] at hi
          obtain ⟨hi, hine⟩ := hi
          obtain ⟨u, hu, hup⟩ := hty ty i hi
          have hne : i ≠ t.test_id := fun he => hine (he.trans holdkey.symm)
          exact ⟨u, by simp [logRec, indexAdd, indexRemove, hne, hu], hup⟩
        · rw [if_neg hpo] at hi
          obtain ⟨u, hu, hup⟩ := hty ty i hi
          have hne : i ≠ t.test_id := by
            intro he
            rw [he, hold] at hu
            have h2 : old = u := Option.some.inj hu
            exact hpo (by rw [← hup, ← h2])
          exact ⟨u, by simp [logRec, indexAdd, indexRemove, hne, hu], hup⟩

/-- delete keeps the index invariant. -/
lemma inv_delete (r : RepoState) (tid now : Nat) (h : Inv r) :
    Inv (delete r tid now).1 := by
  obtain ⟨hkey, hpat, hty⟩ := h
  rcases hold : r.tests tid with _ | t
  · simpa [delete, hold] using ⟨hkey, hpat, hty⟩
  · have holdkey : t.test_id = tid := hkey _ _ hold
    simp only [delete, hold]
    refine ⟨?_, ?_, ?_⟩
    · intro i u hu
      simp only [logRec, indexRemove] at hu
      by_cases hi : i = tid
      · simp [hi] at hu
      · simp [hi] at hu
        exact hkey i u hu
    · intro p i hi
      simp only [logRec, indexRemove] at hi
      by_cases hpo : p = t.patient_id
      · rw [if_pos hpo, mem_pySetDiscard] at hi
        obtain ⟨hi, hine⟩ := hi
        obtain ⟨u, hu, hup⟩ := hpat p i hi
        have hne : i ≠ tid := fun he => hine (he.trans holdkey.symm)
        exact ⟨u, by simp [logRec, indexRemove, hne, hu], hup⟩
      · rw [if_neg hpo] at hi
        obtain ⟨u, hu, hup⟩ := hpat p i hi
        have hne : i ≠ tid := by
          intro he
          rw [he, hold] at hu
          have h2 : t = u := Option.some.inj hu
          exact hpo (by rw [← hup, ← h2])
        exact ⟨u, by simp [logRec, indexRemove, hne, hu], hup⟩
    · intro ty i hi
      simp only [logRec, indexRemove] at hi
      by_cases hpo : ty = t.test_type
      · rw [if_pos hpo, mem_pySetDiscard] at hi
        obtain ⟨hi, hine⟩ := hi
        obtain ⟨u, hu, hup⟩ := hty ty i hi
        have hne : i ≠ tid := fun he => hine (he.trans holdkey.symm)
        exact ⟨u, by simp [logRec, indexRemove, hne, hu], hup⟩
      · rw [if_neg hpo] at hi
        obtain ⟨u, hu, hup⟩ := hty ty i hi
        have hne : i ≠ tid := by
          intro he
          rw [he, hold] at hu
          have h2 : t = u := Option.some.inj hu
          exact hpo (by rw [← hup, ← h2])
        exact ⟨u, by simp [logRec, indexRemove, hne, hu], hup⟩

/-- Every repository call keeps the index invariant. -/
lemma inv_applyOp (r : RepoState) (op : RepoOp) (h : Inv r) : Inv (applyOp r op) := by
  cases op with
  | addOp t now => exact inv_add r t now h
  | updateOp t now => exact inv_update r t now h
  | deleteOp tid now => exact inv_delete r tid now h

/-- Any sequence of repository calls keeps the index invariant. -/
lemma inv_runOps (ops : List RepoOp) : Inv (runOps ops) := by
  unfold runOps
  have hfold : ∀ (l : List RepoOp) (r : RepoState), Inv r → Inv (l.foldl applyOp r) := by
    intro l
    induction l with
    | nil =>
      intro r hr
      exact hr
    | cons op rest ih =>
      intro r hr
      exact ih _ (inv_applyOp r op hr)
  exact hfold ops empty inv_empty

/-- C7: in every repository state reachable by any sequence of add,
update and delete calls, each id in the patient index or the type index
is present in the primary map; and after add of an entity followed by
delete of its id, get returns nothing and find_by_patient no longer
includes the entity. -/
theorem repo_index_consistency (ops : List RepoOp) (e : TestRec) (n1 n2 : Nat) :
    (∀ p i, i ∈ (runOps ops).index_patient p →
      ((runOps ops).tests i).isSome = true) ∧
    (∀ ty i, i ∈ (runOps ops).index_type ty →
      ((runOps ops).tests i).isSome = true) ∧
    get (delete (add (runOps ops) e n1).1 e.test_id n2).1 e.test_id = none ∧
    e ∉ find_by_patient (delete (add (runOps ops) e n1).1 e.test_id n2).1 e.patient_id := by
  obtain ⟨hkey, hpat, hty⟩ := inv_runOps ops
  set s := runOps ops with hs
  have hs1inv : Inv (add s e n1).1 := inv_add s e n1 ⟨hkey, hpat, hty⟩
  have hs1some : ((add s e n1).1.tests e.test_id).isSome = true := by
    by_cases hp : (s.tests e.test_id).isSome = true
    · simp [add, hp]
    · simp [add, hp, logRec, indexAdd]
  obtain ⟨t1, ht1⟩ := Option.isSome_iff_exists.mp hs1some
  have hs2inv : Inv (delete (add s e n1).1 e.test_id n2).1 := inv_delete _ _ _ hs1inv
  have hget : get (delete (add s e n1).1 e.test_id n2).1 e.test_id = none := by
    simp [delete, ht1, get, logRec, indexRemove]
  refine ⟨?_, ?_, hget, ?_⟩
  · intro p i hi
    obtain ⟨t, ht, _⟩ := hpat p i hi
    simp [ht]
  · intro ty i hi
    obtain ⟨t, ht, _⟩ := hty ty i hi
    simp [ht]
  · intro hmem
    simp only [find_by_patient, List.mem_filterMap] at hmem
    obtain ⟨i, hi, hisome⟩ := hmem
    have hkey2 := hs2inv.1 i e hisome
    rw [← hkey2] at hisome
    have hnone : (delete (add s e n1).1 e.test_id n2).1.tests e.test_id = none := hget
    rw [hnone] at hisome
    exact Option.noConfusion hisome

end InMemoryLabTestRepository

/-- Lookup after a Python dict write. -/
lemma dictFind_dictSet {β : Type} (l : List (Nat × β)) (k j : Nat) (v : β) :
    dictFind (dictSet l k v) j = if j = k then some v else dictFind l j := by
  induction l with
  | nil =>
    simp only [dictSet, dictFind]
    by_cases h : j = k
    · simp [h]
    · rw [if_neg (fun hh => h hh.symm), if_neg h]
  | cons kv rest ih =>
    by_cases hk : kv.1 = k
    · simp only [dictSet, hk, if_true, dictFind]
      by_cases hj : j = k
      · simp [hj]
      · rw [if_neg (fun hh => hj hh.symm), if_neg hj,
          if_neg (fun hh => hj hh.symm)]
    · simp only [dictSet, hk, if_false, dictFind]
      by_cases hj2 : kv.1 = j
      · have h3 : j ≠ k := fun hh => hk (hj2.trans hh)
        simp [hj2, h3]
      · simp [hj2, ih]

/-- A Python dict pop split on the head entry. -/
lemma dictPop_cons {β : Type} (kv : Nat × β) (rest : List (Nat × β)) (k : Nat) :
    dictPop (kv :: rest) k =
      if kv.1 = k then dictPop rest k else kv :: dictPop rest k := by
  by_cases h : kv.1 = k <;> simp [dictPop, List.filter_cons, h]

/-- Lookup after a Python dict pop. -/
lemma dictFind_dictPop {β : Type} (l : List (Nat × β)) (k j : Nat) :
    dictFind (dictPop l k) j = if j = k then none else dictFind l j := by
  induction l with
  | nil =>
    by_cases h : j = k <;> simp [dictPop, dictFind, h]
  | cons kv rest ih =>
    rw [dictPop_cons]
    by_cases hk : kv.1 = k
    · rw [if_pos hk, ih]
      by_cases hj : j = k
      · simp [hj]
      · have h2 : kv.1 ≠ j := fun hh => hj (hh.symm.trans hk)
        simp [hj, dictFind, h2]
    · rw [if_neg hk]
      simp only [dictFind]
      by_cases hj2 : kv.1 = j
      · have h3 : j ≠ k := fun hh => hk (hj2.trans hh)
        simp [hj2, h3]
      · simp [hj2, ih]

/-- Membership after a Python dict write. -/
lemma dictMem_dictSet {β : Type} (l : List (Nat × β)) (k j : Nat) (v : β) :
    dictMem (dictSet l k v) j = if j = k then true else dictMem l j := by
  simp only [dictMem, dictFind_dictSet]
  by_cases h : j = k <;> simp [h]

/-- Membership after a Python dict pop. -/
lemma dictMem_dictPop {β : Type} (l : List (Nat × β)) (k j : Nat) :
    dictMem (dictPop l k) j = if j = k then false else dictMem l j := by
  simp only [dictMem, dictFind_dictPop]
  by_cases h : j = k <;> simp [h]

/-- Membership as presence among the keys. -/
lemma dictMem_iff_mem_keys {β : Type} (l : List (Nat × β)) (k : Nat) :
    dictMem l k = true ↔ k ∈ l.map Prod.fst := by
  induction l with
  | nil => simp [dictMem, dictFind]
  | cons kv rest ih =>
    by_cases h : kv.1 = k
    · simp [dictMem, dictFind, h]
    · have h2 : ¬ (k = kv.1) := fun hh => h hh.symm
      simp only [dictMem, dictFind, h, if_false, List.map_cons, List.mem_cons]
      rw [← ih]
      simp [dictMem, h2]

/-- An entry of the dict makes its key a member. -/
lemma dictMem_of_mem {β : Type} (l : List (Nat × β)) (k : Nat) (v : β)
    (h : (k, v) ∈ l) : dictMem l k = true := by
  induction l with
  | nil => simp at h
  | cons kv rest ih =>
    rcases List.mem_cons.mp h with heq | h2
    · rw [← heq]
      simp [dictMem, dictFind]
    · by_cases hk : kv.1 = k <;> simp [dictMem, dictFind, hk]
      exact ih h2

/-- With clean keys, lookup returns the stored pair. -/
lemma dictFind_of_mem_nodup {β : Type} (l : List (Nat × β)) (k : Nat) (v : β)
    (hn : CachedLabTestRepository.NodupKeys l) (h : (k, v) ∈ l) :
    dictFind l k = some v := by
  induction l with
  | nil => simp at h
  | cons kv rest ih =>
    simp only [CachedLabTestRepository.NodupKeys, List.map_cons, List.nodup_cons] at hn
    obtain ⟨hnotin, hrest⟩ := hn
    rcases List.mem_cons.mp h with heq | h2
    · rw [← heq]
      simp [dictFind]
    · have hne : kv.1 ≠ k := by
        intro he
        apply hnotin
        rw [he]
        exact List.mem_map_of_mem Prod.fst h2
      simp [dictFind, hne, ih hrest h2]

/-- A dict write keeps the keys clean. -/
lemma nodupKeys_dictSet {β : Type} (l : List (Nat × β)) (k : Nat) (v : β)
    (h : CachedLabTestRepository.NodupKeys l) :
    CachedLabTestRepository.NodupKeys (dictSet l k v) := by
  induction l with
  | nil => simp [dictSet, CachedLabTestRepository.NodupKeys]
  | cons kv rest ih =>
    simp only [CachedLabTestRepository.NodupKeys, List.map_cons, List.nodup_cons] at h
    obtain ⟨hnotin, hrest⟩ := h
    by_cases hk : kv.1 = k
    · simp only [dictSet, hk, if_true, CachedLabTestRepository.NodupKeys,
        List.map_cons, List.nodup_cons]
      exact ⟨hk ▸ hnotin, hrest⟩
    · simp only [dictSet, hk, if_false, CachedLabTestRepository.NodupKeys,
        List.map_cons, List.nodup_cons]
      refine ⟨?_, ih hrest⟩
      intro hmem
      rcases (dictMem_iff_mem_keys _ _).mpr hmem with _
      have := (dictMem_iff_mem_keys (dictSet rest k v) kv.1).mpr hmem
      rw [dictMem_dictSet] at this
      rw [if_neg hk] at this
      exact hnotin ((dictMem_iff_mem_keys rest kv.1).mp this)

/-- A dict pop keeps the keys clean. -/
lemma nodupKeys_dictPop {β : Type} (l : List (Nat × β)) (k : Nat)
    (h : CachedLabTestRepository.NodupKeys l) :
    CachedLabTestRepository.NodupKeys (dictPop l k) := by
  unfold CachedLabTestRepository.NodupKeys at *
  exact h.sublist ((List.filter_sublist l).map Prod.fst)

/-- A dict write grows the dict by at most one entry. -/
lemma length_dictSet_le {β : Type} (l : List (Nat × β)) (k : Nat) (v : β) :
    (dictSet l k v).length ≤ l.length + 1 := by
  induction l with
  | nil => simp [dictSet]
  | cons kv rest ih =>
    by_cases hk : kv.1 = k
    · simp [dictSet, hk]
    · simp [dictSet, hk]
      omega

/-- A dict write under a fresh key grows the dict by exactly one entry. -/
lemma length_dictSet_of_not_mem {β : Type} (l : List (Nat × β)) (k : Nat) (v : β)
    (h : dictMem l k = false) : (dictSet l k v).length = l.length + 1 := by
  induction l with
  | nil => simp [dictSet]
  | cons kv rest ih =>
    by_cases hk : kv.1 = k
    · simp [dictMem, dictFind, hk] at h
    · simp only [dictMem, dictFind, hk, if_false] at h
      simp [dictSet, hk, ih h]

/-- A dict pop never grows the dict. -/
lemma length_dictPop_le {β : Type} (l : List (Nat × β)) (k : Nat) :
    (dictPop l k).length ≤ l.length :=
  List.length_filter_le _ _

/-- Popping an absent key changes nothing. -/
lemma dictPop_of_not_mem {β : Type} (l : List (Nat × β)) (k : Nat)
    (h : dictMem l k = false) : dictPop l k = l := by
  induction l with
  | nil => rfl
  | cons kv rest ih =>
    by_cases hk : kv.1 = k
    · simp [dictMem, dictFind, hk] at h
    · simp only [dictMem, dictFind, hk, if_false] at h
      rw [dictPop_cons, if_neg hk, ih h]

/-- With clean keys, popping a present key removes exactly one entry. -/
lemma length_dictPop_of_mem {β : Type} (l : List (Nat × β)) (k : Nat)
    (hn : CachedLabTestRepository.NodupKeys l) (h : dictMem l k = true) :
    (dictPop l k).length + 1 = l.length := by
  induction l with
  | nil => simp [dictMem, dictFind] at h
  | cons kv rest ih =>
    simp only [CachedLabTestRepository.NodupKeys, List.map_cons, List.nodup_cons] at hn
    obtain ⟨hnotin, hrest⟩ := hn
    by_cases hk : kv.1 = k
    · have hmem : dictMem rest k = false := by
        rcases hb : dictMem rest k with _ | _
        · rfl
        · exact absurd (hk ▸ (dictMem_iff_mem_keys rest k).mp hb) hnotin
      rw [dictPop_cons, if_pos hk, dictPop_of_not_mem rest k hmem]
      simp
    · simp only [dictMem, dictFind, hk, if_false] at h
      rw [dictPop_cons, if_neg hk]
      simp only [List.length_cons]
      have := ih hrest h
      omega

/-- The running minimum of the eviction scan is the seed or a scanned
entry. -/
lemma foldl_min_choice (rest : List (Nat × Nat)) :
    ∀ a : Nat × Nat,
      rest.foldl (fun best x => if x.2 < best.2 then x else best) a = a ∨
      rest.foldl (fun best x => if x.2 < best.2 then x else best) a ∈ rest := by
  induction rest with
  | nil =>
    intro a
    exact Or.inl rfl
  | cons x xs ih =>
    intro a
    rw [List.foldl_cons]
    rcases ih (if x.2 < a.2 then x else a) with h | h
    · by_cases hx : x.2 < a.2
      · rw [h, if_pos hx]
        exact Or.inr (List.mem_cons_self x xs)
      · rw [h, if_neg hx]
        exact Or.inl rfl
    · exact Or.inr (List.mem_cons_of_mem x h)

/-- The running minimum of the eviction scan is below the seed and every
scanned entry. -/
lemma foldl_min_le (rest : List (Nat × Nat)) :
    ∀ a : Nat × Nat,
      (rest.foldl (fun best x => if x.2 < best.2 then x else best) a).2 ≤ a.2 ∧
      ∀ x ∈ rest,
        (rest.foldl (fun best x => if x.2 < best.2 then x else best) a).2 ≤ x.2 := by
  induction rest with
  | nil =>
    intro a
    exact ⟨le_rfl, by simp⟩
  | cons x xs ih =>
    intro a
    obtain ⟨h1, h2⟩ := ih (if x.2 < a.2 then x else a)
    have hfa : (if x.2 < a.2 then x else a).2 ≤ a.2 := by
      by_cases hx : x.2 < a.2
      · rw [if_pos hx]
        exact le_of_lt hx
      · rw [if_neg hx]
    have hfx : (if x.2 < a.2 then x else a).2 ≤ x.2 := by
      by_cases hx : x.2 < a.2
      · rw [if_pos hx]
      · rw [if_neg hx]
        exact le_of_not_lt hx
    refine ⟨?_, ?_⟩
    · rw [List.foldl_cons]
      exact le_trans h1 hfa
    · intro y hy
      rw [List.foldl_cons]
      rcases List.mem_cons.mp hy with heq | hy
      · rw [heq]
        exact le_trans h1 hfx
      · exact h2 y hy

/-- The eviction scan returns an entry of the dict with the least
counter. -/
lemma minByValue_spec (l : List (Nat × Nat)) (kv : Nat × Nat)
    (h : minByValue l = some kv) : kv ∈ l ∧ ∀ x ∈ l, kv.2 ≤ x.2 := by
  cases l with
  | nil => simp [minByValue] at h
  | cons a rest =>
    simp only [minByValue, Option.some.injEq] at h
    constructor
    · rcases foldl_min_choice rest a with h2 | h2
      · rw [← h, h2]
        exact List.mem_cons_self a rest
      · rw [← h]
        exact List.mem_cons_of_mem a h2
    · intro x hx
      obtain ⟨h1, h2⟩ := foldl_min_le rest a
      rcases List.mem_cons.mp hx with heq | hx
      · rw [← h, heq]
        exact h1
      · rw [← h]
        exact h2 x hx

/-- A nonempty counter dict always yields an eviction victim. -/
lemma minByValue_of_ne_nil (l : List (Nat × Nat)) (h : l ≠ []) :
    ∃ kv, minByValue l = some kv := by
  cases l with
  | nil => exact absurd rfl h
  | cons a rest => exact ⟨_, rfl⟩

namespace CachedLabTestRepository

/-- The freshly constructed cache layer satisfies the cache invariant. -/
lemma cacheInv_make (main : RepoState) (cap : Nat) : Inv (make main cap) := by
  refine ⟨?_, ?_, ?_, ?_, ?_⟩ <;>
    simp [make, NodupKeys, dictMem, dictFind]

/-- cache_put keeps the cache invariant. -/
lemma cacheInv_cachePut (c : CacheState) (tid : Nat) (t : TestRec)
    (h : Inv c) : Inv (cachePut c tid t) := by
  obtain ⟨hcap, hnc, hnh, hkeys, hlen⟩ := h
  by_cases hfull : c.capacity ≤ c.cache.length
  · have hlen1 : c.cache.length = c.capacity := le_antisymm hlen hfull
    have hne : c.cache ≠ [] := by
      intro hnil
      rw [hnil] at hlen1
      simp at hlen1
      omega
    have hhits_ne : c.hits ≠ [] := by
      rcases hc2 : c.cache with _ | ⟨kv, rest⟩
      · exact absurd hc2 hne
      · have hm : dictMem c.cache kv.1 = true := by
          rw [hc2]
          exact dictMem_of_mem _ _ kv.2 (by rw [Prod.mk.eta]; exact List.mem_cons_self _ _)
        have hmh : dictMem c.hits kv.1 = true := by
          rw [← hkeys kv.1]
          exact hm
        intro hnil
        rw [hnil] at hmh
        simp [dictMem, dictFind] at hmh
    obtain ⟨mv, hmv⟩ := minByValue_of_ne_nil c.hits hhits_ne
    have hmemh : dictMem c.hits mv.1 = true :=
      dictMem_of_mem _ _ mv.2 (by rw [Prod.mk.eta]; exact (minByValue_spec _ _ hmv).1)
    have hmemc : dictMem c.cache mv.1 = true := by
      rw [hkeys mv.1]
      exact hmemh
    have hpopc := length_dictPop_of_mem c.cache mv.1 hnc hmemc
    simp only [cachePut, hfull, if_true, evict, hmv]
    refine ⟨hcap, ?_, ?_, ?_, ?_⟩
    · exact nodupKeys_dictSet _ _ _ (nodupKeys_dictPop _ _ hnc)
    · exact nodupKeys_dictSet _ _ _ (nodupKeys_dictPop _ _ hnh)
    · intro k
      rw [dictMem_dictSet, dictMem_dictSet, dictMem_dictPop, dictMem_dictPop]
      by_cases h1 : k = tid
      · simp [h1]
      · by_cases h2 : k = mv.1 <;> simp [h1, h2, hkeys k]
    · have hsetle := length_dictSet_le (dictPop c.cache mv.1) tid t
      show (dictSet (dictPop c.cache mv.1) tid t).length ≤ c.capacity
      omega
  · simp only [cachePut, hfull, if_false]
    refine ⟨hcap, nodupKeys_dictSet _ _ _ hnc, nodupKeys_dictSet _ _ _ hnh, ?_, ?_⟩
    · intro k
      rw [dictMem_dictSet, dictMem_dictSet]
      by_cases h1 : k = tid <;> simp [h1, hkeys k]
    · have hsetle := length_dictSet_le c.cache tid t
      show (dictSet c.cache tid t).length ≤ c.capacity
      omega

/-- Cached get keeps the cache invariant. -/
lemma cacheInv_get (c : CacheState) (tid : Nat) (h : Inv c) : Inv (get c tid).1 := by
  obtain ⟨hcap, hnc, hnh, hkeys, hlen⟩ := h
  unfold get
  rcases hf : dictFind c.cache tid with _ | t
  · rcases hg : InMemoryLabTestRepository.get c.main tid with _ | t
    · exact ⟨hcap, hnc, hnh, hkeys, hlen⟩
    · exact cacheInv_cachePut c tid t ⟨hcap, hnc, hnh, hkeys, hlen⟩
  · refine ⟨hcap, hnc, nodupKeys_dictSet _ _ _ hnh, ?_, hlen⟩
    intro k
    show dictMem c.cache k = dictMem (dictSet c.hits tid ((dictFind c.hits tid).getD 0 + 1)) k
    rw [dictMem_dictSet]
    by_cases hk : k = tid
    · rw [if_pos hk, hk]
      simp [dictMem, hf]
    · rw [if_neg hk]
      exact hkeys k

/-- Cached add keeps the cache invariant. -/
lemma cacheInv_add (c : CacheState) (t : TestRec) (now : Nat) (h : Inv c) :
    Inv (CachedLabTestRepository.add c t now).1 := by
  obtain ⟨hcap, hnc, hnh, hkeys, hlen⟩ := h
  rcases hres : InMemoryLabTestRepository.add c.main t now with ⟨m, b⟩
  cases b
  · have heq : (CachedLabTestRepository.add c t now).1 = { c with main := m } := by
      simp [CachedLabTestRepository.add, hres]
    rw [heq]
    exact ⟨hcap, hnc, hnh, hkeys, hlen⟩
  · have heq : (CachedLabTestRepository.add c t now).1 =
        cachePut { c with main := m } t.test_id t := by
      simp [CachedLabTestRepository.add, hres]
    rw [heq]
    exact cacheInv_cachePut _ _ _ ⟨hcap, hnc, hnh, hkeys, hlen⟩

/-- Cached delete keeps the cache invariant. -/
lemma cacheInv_delete (c : CacheState) (tid now : Nat) (h : Inv c) :
    Inv (CachedLabTestRepository.delete c tid now).1 := by
  obtain ⟨hcap, hnc, hnh, hkeys, hlen⟩ := h
  rcases hres : InMemoryLabTestRepository.delete c.main tid now with ⟨m, b⟩
  cases b
  · have heq : (CachedLabTestRepository.delete c tid now).1 = { c with main := m } := by
      simp [CachedLabTestRepository.delete, hres]
    rw [heq]
    exact ⟨hcap, hnc, hnh, hkeys, hlen⟩
  · have heq : (CachedLabTestRepository.delete c tid now).1 =
        { c with main := m, cache := dictPop c.cache tid,
                 hits := dictPop c.hits tid } := by
      simp [CachedLabTestRepository.delete, hres]
    rw [heq]
    refine ⟨hcap, nodupKeys_dictPop _ _ hnc, nodupKeys_dictPop _ _ hnh, ?_, ?_⟩
    · intro k
      rw [dictMem_dictPop, dictMem_dictPop]
      by_cases hk : k = tid <;> simp [hk, hkeys k]
    · exact le_trans (length_dictPop_le _ _) hlen

/-- Every cache layer call keeps the cache invariant. -/
lemma cacheInv_applyOp (c : CacheState) (op : CacheOp) (h : Inv c) :
    Inv (applyOp c op) := by
  cases op with
  | getOp tid => exact cacheInv_get c tid h
  | addOp t now => exact cacheInv_add c t now h
  | deleteOp tid now => exact cacheInv_delete c tid now h

/-- Any sequence of cache layer calls keeps the cache invariant. -/
lemma cacheInv_runOps (ops : List CacheOp) (c : CacheState) (h : Inv c) :
    Inv (runOps ops c) := by
  induction ops generalizing c with
  | nil => exact h
  | cons op rest ih => exact ih _ (cacheInv_applyOp c op h)

/-- C8: after any sequence of cache layer get, add and delete calls on a
layer built over any repository with any configured capacity, the cache
never holds more entries than the clamped capacity; and when an insertion
of a fresh id happens with the cache exactly at capacity, exactly one
existing entry is evicted first, one whose access counter is least in the
counter dict, and the cache is back at capacity afterwards. -/
theorem cache_capacity_lfu_eviction (main0 : RepoState) (cap : Nat)
    (ops : List CacheOp) :
    (runOps ops (make main0 cap)).cache.length
      ≤ (runOps ops (make main0 cap)).capacity ∧
    (∀ tid t,
      (runOps ops (make main0 cap)).cache.length
        = (runOps ops (make main0 cap)).capacity →
      dictMem (runOps ops (make main0 cap)).cache tid = false →
      ∃ v hv,
        dictFind (runOps ops (make main0 cap)).hits v = some hv ∧
        dictMem (runOps ops (make main0 cap)).cache v = true ∧
        (∀ p ∈ (runOps ops (make main0 cap)).hits, hv ≤ p.2) ∧
        (cachePut (runOps ops (make main0 cap)) tid t).cache.length
          = (runOps ops (make main0 cap)).capacity ∧
        (∀ k, dictMem (cachePut (runOps ops (make main0 cap)) tid t).cache k = true ↔
          ((dictMem (runOps ops (make main0 cap)).cache k = true ∧ k ≠ v) ∨
            k = tid))) := by
  obtain ⟨hcap, hnc, hnh, hkeys, hlen⟩ :=
    cacheInv_runOps ops (make main0 cap) (cacheInv_make main0 cap)
  set c := runOps ops (make main0 cap) with hc
  refine ⟨hlen, ?_⟩
  intro tid t hfull hnew
  have hne : c.cache ≠ [] := by
    intro hnil
    rw [hnil] at hfull
    simp at hfull
    omega
  have hhits_ne : c.hits ≠ [] := by
    rcases hc2 : c.cache with _ | ⟨kv, rest⟩
    · exact absurd hc2 hne
    · have hm : dictMem c.cache kv.1 = true := by
        rw [hc2]
        exact dictMem_of_mem _ _ kv.2 (by rw [Prod.mk.eta]; exact List.mem_cons_self _ _)
      have hmh : dictMem c.hits kv.1 = true := by
        rw [← hkeys kv.1]
        exact hm
      intro hnil
      rw [hnil] at hmh
      simp [dictMem, dictFind] at hmh
  obtain ⟨mv, hmv⟩ := minByValue_of_ne_nil c.hits hhits_ne
  obtain ⟨hmv_mem, hmv_le⟩ := minByValue_spec c.hits mv hmv
  have hfindv : dictFind c.hits mv.1 = some mv.2 :=
    dictFind_of_mem_nodup c.hits mv.1 mv.2 hnh (by rw [Prod.mk.eta]; exact hmv_mem)
  have hmemc : dictMem c.cache mv.1 = true := by
    rw [hkeys mv.1]
    exact dictMem_of_mem _ _ mv.2 (by rw [Prod.mk.eta]; exact hmv_mem)
  have hcaple : c.capacity ≤ c.cache.length := le_of_eq hfull.symm
  have hpopc := length_dictPop_of_mem c.cache mv.1 hnc hmemc
  have hnotmem : dictMem (dictPop c.cache mv.1) tid = false := by
    rw [dictMem_dictPop]
    by_cases htv : tid = mv.1 <;> simp [htv, hnew]
  have hset := length_dictSet_of_not_mem (dictPop c.cache mv.1) tid t hnotmem
  refine ⟨mv.1, mv.2, hfindv, hmemc, fun p hp => hmv_le p hp, ?_, ?_⟩
  · simp only [cachePut, hcaple, if_true, evict, hmv]
    show (dictSet (dictPop c.cache mv.1) tid t).length = c.capacity
    omega
  · intro k
    simp only [cachePut, hcaple, if_true, evict, hmv]
    show dictMem (dictSet (dictPop c.cache mv.1) tid t) k = true ↔
      ((dictMem c.cache k = true ∧ k ≠ mv.1) ∨ k = tid)
    rw [dictMem_dictSet, dictMem_dictPop]
    by_cases hk : k = tid
    · simp [hk]
    · by_cases hkv : k = mv.1 <;> simp [hk, hkv]

end CachedLabTestRepository

/-- C9: the stale cache scenario. After an entity is added through the
cache layer, the wrapped repository replaces the stored entity for that
id with a different entity through its own update; the repository then
holds the new entity but a cache get still returns the old cached one. -/
theorem stale_cache_hit :
    InMemoryLabTestRepository.get staleCache2.main 1 = some staleE2 ∧
    (CachedLabTestRepository.get staleCache2 1).2 = some staleE1 ∧
    staleE1 ≠ staleE2 := by
  refine ⟨rfl, rfl, by decide⟩

end HastaneLab
